import Mathlib

/-!
# fluentforwardreceiver: the Collector

A verification development for `receiver/fluentforwardreceiver/collector.go`.

The collector goroutine (`processEvents` together with `fillBufferUntilChanEmpty`)
is embedded as a step function on an explicit state.  The world around it is given
by two things:

* an `Env`: the obsreport start hook and the next consumer, both external;
* a schedule, a list of `Input`s: a producer sending an Event on the channel, or the
  collector goroutine being run up to its next channel operation.

A Go `select` with several ready cases picks one of them pseudo-randomly; the pick is
an explicit Boolean of the schedule.  A `plog` value is a handle on shared storage:
`logSlice` aliases a slot inside `out`, and the consumer is handed the very same
`out`, so the consumer returns the content it leaves behind next to its error.
-/

namespace FluentForward

/-! ## Data model (pdata) -/

/-- One `plog.LogRecord`.  The collector never looks inside a record; the payload only
tells records apart. -/
structure LogRecord where
  payload : Nat
deriving DecidableEq, Repr

/-- Modelled from the spec: the `Event` type is declared in another file of the package.
An Event exposes, through `LogRecords()`, a movable ordered sequence of log records. -/
structure Event where
  logRecords : List LogRecord
deriving DecidableEq, Repr

/-- The content of a `plog.ScopeLogs`: its `LogRecords()` slice. -/
structure ScopeLogs where
  logRecords : List LogRecord
deriving DecidableEq, Repr

/-- The content of a `plog.ResourceLogs`: its `ScopeLogs()` slice. -/
structure ResourceLogs where
  scopeLogs : List ScopeLogs
deriving DecidableEq, Repr

/-- The content of a `plog.Logs`: its `ResourceLogs()` slice. -/
structure Logs where
  resourceLogs : List ResourceLogs
deriving DecidableEq, Repr

/-- A `plog.LogRecordSlice` obtained from a `Logs` value is a handle on the record
slice of one scope of one resource of that value. -/
structure Handle where
  resource : Nat
  scope : Nat
deriving DecidableEq, Repr

/-- Apply `f` to the element at position `i`, if there is one. -/
def modifyAt {α : Type} (f : α → α) : Nat → List α → List α
  | _, [] => []
  | 0, a :: as => f a :: as
  | n + 1, a :: as => a :: modifyAt f n as

/-- `plog.NewLogs()`: a value with no resource logs. -/
def NewLogs : Logs := ⟨[]⟩

/-- `ld.ResourceLogs().AppendEmpty()`: append an empty entry, return its position. -/
def Logs.AppendEmptyResourceLogs (ld : Logs) : Logs × Nat :=
  (⟨ld.resourceLogs ++ [⟨[]⟩]⟩, ld.resourceLogs.length)

/-- `rls.ScopeLogs().AppendEmpty().LogRecords()` for the resource entry at `rls`: append an
empty scope entry to it and return the handle on that entry's record slice. -/
def Logs.AppendEmptyScopeLogs (ld : Logs) (rls : Nat) : Logs × Handle :=
  (⟨modifyAt (fun rl => ⟨rl.scopeLogs ++ [⟨[]⟩]⟩) rls ld.resourceLogs⟩,
   ⟨rls, match ld.resourceLogs[rls]? with
         | some rl => rl.scopeLogs.length
         | none => 0⟩)

/-- `src.MoveAndAppendTo(dest)` where `dest` is a handle into `ld`: the records of `src`
are appended, in order, after the records already in the destination.  (The source
slice is left empty; the collector drops the Event right afterwards.) -/
def Logs.MoveAndAppendTo (src : List LogRecord) (ld : Logs) (dest : Handle) : Logs :=
  ⟨modifyAt (fun rl => ⟨modifyAt (fun sl => ⟨sl.logRecords ++ src⟩) dest.scope rl.scopeLogs⟩)
    dest.resource ld.resourceLogs⟩

/-- The record slice a handle points at. -/
def Logs.recordsAt (ld : Logs) (h : Handle) : Option (List LogRecord) :=
  match ld.resourceLogs[h.resource]? with
  | none => none
  | some rl =>
    match rl.scopeLogs[h.scope]? with
    | none => none
    | some sl => some sl.logRecords

/-- `ld.LogRecordCount()`: the two nested loops over resources and scopes adding up
`LogRecords().Len()`. -/
def Logs.LogRecordCount (ld : Logs) : Nat :=
  (ld.resourceLogs.map fun rl => (rl.scopeLogs.map fun sl => sl.logRecords.length).sum).sum

/-- All records of a `Logs` value, resource by resource and scope by scope. -/
def Logs.allRecords (ld : Logs) : List LogRecord :=
  (ld.resourceLogs.map fun rl => (rl.scopeLogs.map fun sl => sl.logRecords).flatten).flatten

/-! ## The collector and its surroundings -/

/-- What the collector does towards the outside, in program order.  `κ` is the type of
`context.Context` values, `ε` the type of non-nil errors. -/
inductive Effect (κ ε : Type)
  /-- A receive on `eventCh` that delivered an Event (lines 58 and 79). -/
  | recv (e : Event)
  /-- Modelled from the spec: `observ.RecordsGenerated` is declared in another package of
  the repository; it is the records-generated counter, taking an integer increment.
  `stats.Record(context.Background(), observ.RecordsGenerated.M(v))`, line 68. -/
  | statsRecord (v : Int)
  /-- The call `c.obsrecv.StartLogsOp(ctx)`, line 69. -/
  | StartLogsOp (ctx : κ)
  /-- The call `c.nextConsumer.ConsumeLogs(ctx, ld)`, line 70, with the content of `ld` at
  the time of the call. -/
  | ConsumeLogs (ctx : κ) (ld : Logs)
  /-- The call `c.obsrecv.EndLogsOp(ctx, format, numItems, err)`, line 71. -/
  | EndLogsOp (ctx : κ) (format : String) (numItems : Nat) (err : Option ε)
deriving DecidableEq, Repr

/-- The external collaborators of the collector.

`StartLogsOp` is the obsreport hook: it returns a context.  `ConsumeLogs k ctx ld` is the
answer of the next consumer to its call number `k` (counting from 0): the content it
leaves in the batch it was handed, and the error it returns (`none` for nil).  The
consumer receives a handle on the storage of `out`, not a copy, so what it leaves there is
what `out` holds afterwards. -/
structure Env (κ ε : Type) where
  StartLogsOp : κ → κ
  ConsumeLogs : Nat → κ → Logs → Logs × Option ε

/-- Where the collector goroutine stands. -/
inductive Loc
  /-- At the `select` of `processEvents` (line 55). -/
  | select
  /-- Inside `fillBufferUntilChanEmpty(dest)`, at its `select` (line 78); `out` is the
  batch of the current iteration of `processEvents`. -/
  | fill (out : Logs) (dest : Handle)
  /-- `fillBufferUntilChanEmpty` has returned; about to run lines 68 to 71. -/
  | forward (out : Logs)
  /-- `processEvents` has returned (line 57). -/
  | returned
deriving DecidableEq, Repr

/-- The state of a run. -/
structure State (κ ε : Type) where
  /-- Program point of the collector goroutine. -/
  loc : Loc
  /-- The variable `ctx` of `processEvents`. -/
  ctx : κ
  /-- Events sent on `eventCh` and not yet received (sitting in the buffer, or held by a
  sender blocked on its send), oldest first. -/
  eventCh : List Event
  /-- Number of `ConsumeLogs` calls made so far. -/
  calls : Nat
  /-- Everything done so far, oldest first. -/
  trace : List (Effect κ ε)

/-- One entry of a schedule. -/
inductive Input
  /-- A producer sends an Event on `eventCh`. -/
  | send (e : Event)
  /-- The collector goroutine takes its next step: one `select` (of `processEvents` or of
  `fillBufferUntilChanEmpty`), or lines 68 to 71.  `ctxDone` tells whether `ctx.Done()` is
  ready at that moment, and `pickDone` is the choice of the runtime when both cases of the
  `select` of `processEvents` are ready; both are only looked at by that `select`. -/
  | tick (ctxDone : Bool) (pickDone : Bool)
deriving DecidableEq, Repr

/-- Lines 59 to 62: a fresh batch with one resource entry and one scope entry, into whose
record slice the records of the received Event are moved. -/
def newBatch (e : Event) : Logs × Handle :=
  let out := NewLogs
  let (out, rls) := out.AppendEmptyResourceLogs
  let (out, logSlice) := out.AppendEmptyScopeLogs rls
  (out.MoveAndAppendTo e.logRecords logSlice, logSlice)

/-- The `select` of `processEvents` (lines 55 to 62).  With nothing ready the goroutine
stays blocked.  With only one case ready that case runs.  With both cases ready (context
done and an Event queued) Go runs one of them, chosen pseudo-randomly, whatever their
order in the source: `pickDone` is that choice. -/
def processEventsSelect {κ ε : Type} (s : State κ ε) (ctxDone pickDone : Bool) : State κ ε :=
  match s.eventCh with
  | [] => if ctxDone then { s with loc := Loc.returned } else s
  | e :: rest =>
    if ctxDone && pickDone then { s with loc := Loc.returned }
    else
      let (out, logSlice) := newBatch e
      { s with loc := Loc.fill out logSlice, eventCh := rest,
               trace := s.trace ++ [Effect.recv e] }

/-- One turn of the loop of `fillBufferUntilChanEmpty(dest)` (lines 78 to 83): a
non-blocking receive. -/
def fillBufferUntilChanEmptySelect {κ ε : Type} (s : State κ ε) (out : Logs) (dest : Handle) :
    State κ ε :=
  match s.eventCh with
  | e :: rest =>
    { s with loc := Loc.fill (out.MoveAndAppendTo e.logRecords dest) dest, eventCh := rest,
             trace := s.trace ++ [Effect.recv e] }
  | [] => { s with loc := Loc.forward out }

/-- Lines 68 to 71, then back to the top of the loop.  The count given to `EndLogsOp` is
taken from `out` after `ConsumeLogs` has returned.  `int64(n)` of a record count `n` is
`n` itself: a count is bounded by the length of slices held in memory. -/
def processEventsForward {κ ε : Type} (env : Env κ ε) (s : State κ ε) (out : Logs) : State κ ε :=
  let v : Int := (out.LogRecordCount : Int)
  let ctx := env.StartLogsOp s.ctx
  let r := env.ConsumeLogs s.calls ctx out
  { loc := Loc.select, ctx := ctx, eventCh := s.eventCh, calls := s.calls + 1,
    trace := s.trace ++ [Effect.statsRecord v, Effect.StartLogsOp s.ctx,
      Effect.ConsumeLogs ctx out, Effect.EndLogsOp ctx "fluent" r.1.LogRecordCount r.2] }

/-- One entry of the schedule. -/
def step {κ ε : Type} (env : Env κ ε) (s : State κ ε) : Input → State κ ε
  | Input.send e => { s with eventCh := s.eventCh ++ [e] }
  | Input.tick ctxDone pickDone =>
    match s.loc with
    | Loc.select => processEventsSelect s ctxDone pickDone
    | Loc.fill out dest => fillBufferUntilChanEmptySelect s out dest
    | Loc.forward out => processEventsForward env s out
    | Loc.returned => s

/-- A whole schedule. -/
def run {κ ε : Type} (env : Env κ ε) (s : State κ ε) (sched : List Input) : State κ ε :=
  sched.foldl (step env) s

/-- `Start(ctx)`: the goroutine begins `processEvents(ctx)`; `q` is what producers have
already sent. -/
def Start {κ ε : Type} (ctx : κ) (q : List Event) : State κ ε :=
  { loc := Loc.select, ctx := ctx, eventCh := q, calls := 0, trace := [] }

/-- A schedule of `n` turns of the collector with no send and the context not done. -/
def quiet (n : Nat) : List Input := List.replicate n (Input.tick false false)

/-! ## Reading a trace -/

/-- The Events received so far, in the order they were received. -/
def dequeued {κ ε : Type} : List (Effect κ ε) → List Event
  | [] => []
  | Effect.recv e :: t => e :: dequeued t
  | _ :: t => dequeued t

/-- The batches handed to `ConsumeLogs` so far, in call order. -/
def forwarded {κ ε : Type} : List (Effect κ ε) → List Logs
  | [] => []
  | Effect.ConsumeLogs _ ld :: t => ld :: forwarded t
  | _ :: t => forwarded t

/-- The values of the records-generated emissions so far, in order. -/
def metricValues {κ ε : Type} : List (Effect κ ε) → List Int
  | [] => []
  | Effect.statsRecord v :: t => v :: metricValues t
  | _ :: t => metricValues t

/-- The number of `StartLogsOp` calls in a trace. -/
def startCalls {κ ε : Type} : List (Effect κ ε) → Nat
  | [] => 0
  | Effect.StartLogsOp _ :: t => startCalls t + 1
  | _ :: t => startCalls t

/-- The number of `EndLogsOp` calls in a trace. -/
def endCalls {κ ε : Type} : List (Effect κ ε) → Nat
  | [] => 0
  | Effect.EndLogsOp _ _ _ _ :: t => endCalls t + 1
  | _ :: t => endCalls t

/-- The Events received since the last `EndLogsOp`, starting from `acc`: the Events
received in the loop iteration that is under way at the end of the trace. -/
def receivedSince {κ ε : Type} (acc : List Event) : List (Effect κ ε) → List Event
  | [] => acc
  | Effect.recv e :: t => receivedSince (acc ++ [e]) t
  | Effect.EndLogsOp _ _ _ _ :: t => receivedSince [] t
  | _ :: t => receivedSince acc t

/-- The records of a sequence of Events, Event after Event. -/
def records : List Event → List LogRecord
  | [] => []
  | e :: es => e.logRecords ++ records es

/-- The Events a schedule sends, in order. -/
def sent : List Input → List Event
  | [] => []
  | Input.send e :: t => e :: sent t
  | _ :: t => sent t

/-- The records of the batch under construction, if the collector is inside an
iteration. -/
def inFlight : Loc → List LogRecord
  | Loc.fill out _ => out.allRecords
  | Loc.forward out => out.allRecords
  | _ => []

/-- `EndLogsOp` with its error argument replaced by nil; every other effect as it is. -/
def eraseErr {κ ε : Type} : Effect κ ε → Effect κ ε
  | Effect.EndLogsOp ctx format numItems _ => Effect.EndLogsOp ctx format numItems none
  | x => x

/-- The same surroundings with a consumer that answers nil to every call. -/
def Env.succeeding {κ ε : Type} (env : Env κ ε) : Env κ ε :=
  { env with ConsumeLogs := fun k ctx ld => ((env.ConsumeLogs k ctx ld).1, none) }

/-! ## Concrete surroundings, for evaluation -/

/-- Contexts for concrete runs: the one given to `Start`, and those derived from a
parent by the start hook. -/
inductive Ctx
  | supplied
  | logsOp (parent : Ctx)
deriving DecidableEq, Repr

/-- A start hook that derives a child context, and a consumer that leaves the batch as
it is and answers nil. -/
def keepEnv : Env Ctx String :=
  { StartLogsOp := Ctx.logsOp, ConsumeLogs := fun _ _ ld => (ld, none) }

/-- A consumer that moves the resource logs out of the batch it is handed (as a batching
stage does) and answers nil. -/
def movingEnv : Env Ctx String :=
  { StartLogsOp := Ctx.logsOp, ConsumeLogs := fun _ _ _ => (⟨[]⟩, none) }

/-- A consumer that leaves the batch as it is and fails on its call number 1 (its second
call). -/
def failingEnv : Env Ctx String :=
  { StartLogsOp := Ctx.logsOp,
    ConsumeLogs := fun k _ ld => (ld, if k = 1 then some "export failed" else none) }

/-- The Event whose records carry the payloads `ps`. -/
def ev (ps : List Nat) : Event := ⟨ps.map LogRecord.mk⟩

/-! ## The shape of a trace -/

/-- A batch with exactly one resource entry holding exactly one scope entry holding `rs`. -/
def singleScope (rs : List LogRecord) : Logs := ⟨[⟨[⟨rs⟩]⟩]⟩

/-- The trace of one complete loop iteration that merges the Events `g`, started with
`ctx` in the loop variable, the consumer being at its call number `k`. -/
def iteration {κ ε : Type} (env : Env κ ε) (ctx : κ) (k : Nat) (g : List Event) :
    List (Effect κ ε) :=
  g.map Effect.recv ++
    [Effect.statsRecord ((singleScope (records g)).LogRecordCount : Int),
     Effect.StartLogsOp ctx,
     Effect.ConsumeLogs (env.StartLogsOp ctx) (singleScope (records g)),
     Effect.EndLogsOp (env.StartLogsOp ctx) "fluent"
       (env.ConsumeLogs k (env.StartLogsOp ctx) (singleScope (records g))).1.LogRecordCount
       (env.ConsumeLogs k (env.StartLogsOp ctx) (singleScope (records g))).2]

/-- The trace of consecutive complete loop iterations. -/
def iterations {κ ε : Type} (env : Env κ ε) (ctx : κ) (k : Nat) :
    List (List Event) → List (Effect κ ε)
  | [] => []
  | g :: gs => iteration env ctx k g ++ iterations env (env.StartLogsOp ctx) (k + 1) gs

/-- What the program point says about the Events `cur` received in the iteration under
way. -/
def LocOk : Loc → List Event → Prop
  | Loc.select, cur => cur = []
  | Loc.returned, cur => cur = []
  | Loc.fill out dest, cur => cur ≠ [] ∧ out = singleScope (records cur) ∧ dest = ⟨0, 0⟩
  | Loc.forward out, cur => cur ≠ [] ∧ out = singleScope (records cur)

/-- The invariant of a run started by `Start ctx0`: the trace is a sequence of complete
iterations, one per group of `groups`, followed by the receives of the iteration under
way. -/
structure Inv {κ ε : Type} (env : Env κ ε) (ctx0 : κ) (s : State κ ε)
    (groups : List (List Event)) (cur : List Event) : Prop where
  nonempty : ∀ g ∈ groups, g ≠ []
  calls : s.calls = groups.length
  ctx : s.ctx = env.StartLogsOp^[groups.length] ctx0
  trace : s.trace = iterations env ctx0 0 groups ++ cur.map Effect.recv
  loc : LocOk s.loc cur

/-- The batch after `fillBufferUntilChanEmpty(dest)` has moved the records of the Events
`q` into it, one Event after the other. -/
def drained (out : Logs) (dest : Handle) (q : List Event) : Logs :=
  q.foldl (fun o e => o.MoveAndAppendTo e.logRecords dest) out

/-- Two states that agree on everything but the error arguments found in their
traces. -/
def SameButErr {κ ε : Type} (a b : State κ ε) : Prop :=
  a.loc = b.loc ∧ a.ctx = b.ctx ∧ a.eventCh = b.eventCh ∧ a.calls = b.calls ∧
    a.trace.map eraseErr = b.trace.map eraseErr

/-- A schedule in which the consumer of `failingEnv` is called three times, each time
with one Event. -/
def threeBatches : List Input :=
  [Input.send (ev [1]), Input.tick false false, Input.tick false false, Input.tick false false,
   Input.send (ev [2]), Input.tick false false, Input.tick false false, Input.tick false false,
   Input.send (ev [3]), Input.tick false false, Input.tick false false, Input.tick false false]

/-! ## Lemmas on the data model -/

theorem newBatch_eq (e : Event) : newBatch e = (singleScope e.logRecords, ⟨0, 0⟩) := rfl

theorem MoveAndAppendTo_singleScope (rs src : List LogRecord) :
    (singleScope rs).MoveAndAppendTo src ⟨0, 0⟩ = singleScope (rs ++ src) := rfl

theorem LogRecordCount_singleScope (rs : List LogRecord) :
    (singleScope rs).LogRecordCount = rs.length := by
  simp [singleScope, Logs.LogRecordCount]

theorem allRecords_singleScope (rs : List LogRecord) : (singleScope rs).allRecords = rs := by
  simp [singleScope, Logs.allRecords]

theorem getElem?_modifyAt {α : Type} (f : α → α) (i : Nat) (l : List α) :
    (modifyAt f i l)[i]? = (l[i]?).map f := by
  induction l generalizing i with
  | nil => simp [modifyAt]
  | cons a as ih =>
    cases i with
    | zero => simp [modifyAt]
    | succ n => simpa [modifyAt] using ih n

theorem recordsAt_MoveAndAppendTo (ld : Logs) (h : Handle) (d src : List LogRecord)
    (hd : ld.recordsAt h = some d) :
    (ld.MoveAndAppendTo src h).recordsAt h = some (d ++ src) := by
  unfold Logs.recordsAt at hd ⊢
  unfold Logs.MoveAndAppendTo
  simp only [getElem?_modifyAt]
  cases hr : ld.resourceLogs[h.resource]? with
  | none => simp [hr] at hd
  | some rl =>
    simp only [hr] at hd
    cases hs : rl.scopeLogs[h.scope]? with
    | none => simp [hs] at hd
    | some sl =>
      simp only [hs, Option.some.injEq] at hd
      simp [getElem?_modifyAt, hs, hd]

theorem records_append (a b : List Event) : records (a ++ b) = records a ++ records b := by
  induction a with
  | nil => rfl
  | cons e es ih => simp [records, ih]

theorem records_flatten (gs : List (List Event)) :
    records gs.flatten = (gs.map records).flatten := by
  induction gs with
  | nil => rfl
  | cons g gs ih => simp [records_append, ih]

theorem length_records (g : List Event) :
    (records g).length = (g.map fun e => e.logRecords.length).sum := by
  induction g with
  | nil => rfl
  | cons e es ih => simp [records, ih]

/-! ## Lemmas on reading a trace -/

theorem dequeued_append {κ ε : Type} (a b : List (Effect κ ε)) :
    dequeued (a ++ b) = dequeued a ++ dequeued b := by
  induction a with
  | nil => rfl
  | cons x t ih => cases x <;> simp [dequeued, ih]

theorem forwarded_append {κ ε : Type} (a b : List (Effect κ ε)) :
    forwarded (a ++ b) = forwarded a ++ forwarded b := by
  induction a with
  | nil => rfl
  | cons x t ih => cases x <;> simp [forwarded, ih]

theorem metricValues_append {κ ε : Type} (a b : List (Effect κ ε)) :
    metricValues (a ++ b) = metricValues a ++ metricValues b := by
  induction a with
  | nil => rfl
  | cons x t ih => cases x <;> simp [metricValues, ih]

theorem startCalls_append {κ ε : Type} (a b : List (Effect κ ε)) :
    startCalls (a ++ b) = startCalls a + startCalls b := by
  induction a with
  | nil => simp [startCalls]
  | cons x t ih =>
    cases x <;> simp [startCalls, ih]
    omega

theorem endCalls_append {κ ε : Type} (a b : List (Effect κ ε)) :
    endCalls (a ++ b) = endCalls a + endCalls b := by
  induction a with
  | nil => simp [endCalls]
  | cons x t ih =>
    cases x <;> simp [endCalls, ih]
    omega

theorem receivedSince_append {κ ε : Type} (acc : List Event) (a b : List (Effect κ ε)) :
    receivedSince acc (a ++ b) = receivedSince (receivedSince acc a) b := by
  induction a generalizing acc with
  | nil => rfl
  | cons x t ih => cases x <;> simp [receivedSince, ih]

theorem dequeued_map_recv {κ ε : Type} (g : List Event) :
    dequeued (g.map (Effect.recv : Event → Effect κ ε)) = g := by
  induction g with
  | nil => rfl
  | cons e es ih => simp [dequeued, ih]

theorem forwarded_map_recv {κ ε : Type} (g : List Event) :
    forwarded (g.map (Effect.recv : Event → Effect κ ε)) = [] := by
  induction g with
  | nil => rfl
  | cons e es ih => simp [forwarded, ih]

theorem metricValues_map_recv {κ ε : Type} (g : List Event) :
    metricValues (g.map (Effect.recv : Event → Effect κ ε)) = [] := by
  induction g with
  | nil => rfl
  | cons e es ih => simp [metricValues, ih]

theorem startCalls_map_recv {κ ε : Type} (g : List Event) :
    startCalls (g.map (Effect.recv : Event → Effect κ ε)) = 0 := by
  induction g with
  | nil => rfl
  | cons e es ih => simp [startCalls, ih]

theorem endCalls_map_recv {κ ε : Type} (g : List Event) :
    endCalls (g.map (Effect.recv : Event → Effect κ ε)) = 0 := by
  induction g with
  | nil => rfl
  | cons e es ih => simp [endCalls, ih]

theorem receivedSince_map_recv {κ ε : Type} (acc g : List Event) :
    receivedSince acc (g.map (Effect.recv : Event → Effect κ ε)) = acc ++ g := by
  induction g generalizing acc with
  | nil => simp [receivedSince]
  | cons e es ih => simp [receivedSince, ih]

/-! ## Lemmas on complete iterations -/

theorem iterations_append {κ ε : Type} (env : Env κ ε) (ctx : κ) (k : Nat)
    (gs : List (List Event)) (g : List Event) :
    iterations env ctx k (gs ++ [g]) =
      iterations env ctx k gs ++ iteration env (env.StartLogsOp^[gs.length] ctx) (k + gs.length) g := by
  induction gs generalizing ctx k with
  | nil => simp [iterations]
  | cons g' gs ih =>
    have hk : k + 1 + gs.length = k + (gs.length + 1) := by omega
    show iterations env ctx k (g' :: (gs ++ [g])) = _
    rw [iterations, ih, hk]
    simp [iterations, Function.iterate_succ_apply]

theorem dequeued_iteration {κ ε : Type} (env : Env κ ε) (ctx : κ) (k : Nat) (g : List Event) :
    dequeued (iteration env ctx k g) = g := by
  simp [iteration, dequeued_append, dequeued_map_recv, dequeued]

theorem forwarded_iteration {κ ε : Type} (env : Env κ ε) (ctx : κ) (k : Nat) (g : List Event) :
    forwarded (iteration env ctx k g) = [singleScope (records g)] := by
  simp [iteration, forwarded_append, forwarded_map_recv, forwarded]

theorem metricValues_iteration {κ ε : Type} (env : Env κ ε) (ctx : κ) (k : Nat)
    (g : List Event) :
    metricValues (iteration env ctx k g) = [((singleScope (records g)).LogRecordCount : Int)] := by
  simp [iteration, metricValues_append, metricValues_map_recv, metricValues]

theorem startCalls_iteration {κ ε : Type} (env : Env κ ε) (ctx : κ) (k : Nat) (g : List Event) :
    startCalls (iteration env ctx k g) = 1 := by
  simp [iteration, startCalls_append, startCalls_map_recv, startCalls]

theorem endCalls_iteration {κ ε : Type} (env : Env κ ε) (ctx : κ) (k : Nat) (g : List Event) :
    endCalls (iteration env ctx k g) = 1 := by
  simp [iteration, endCalls_append, endCalls_map_recv, endCalls]

theorem receivedSince_iteration {κ ε : Type} (env : Env κ ε) (ctx : κ) (k : Nat)
    (acc g : List Event) : receivedSince acc (iteration env ctx k g) = [] := by
  simp [iteration, receivedSince_append, receivedSince_map_recv, receivedSince]

theorem dequeued_iterations {κ ε : Type} (env : Env κ ε) (ctx : κ) (k : Nat)
    (gs : List (List Event)) : dequeued (iterations env ctx k gs) = gs.flatten := by
  induction gs generalizing ctx k with
  | nil => rfl
  | cons g gs ih => simp [iterations, dequeued_append, dequeued_iteration, ih]

theorem forwarded_iterations {κ ε : Type} (env : Env κ ε) (ctx : κ) (k : Nat)
    (gs : List (List Event)) :
    forwarded (iterations env ctx k gs) = gs.map fun g => singleScope (records g) := by
  induction gs generalizing ctx k with
  | nil => rfl
  | cons g gs ih => simp [iterations, forwarded_append, forwarded_iteration, ih]

theorem metricValues_iterations {κ ε : Type} (env : Env κ ε) (ctx : κ) (k : Nat)
    (gs : List (List Event)) :
    metricValues (iterations env ctx k gs) =
      gs.map fun g => ((singleScope (records g)).LogRecordCount : Int) := by
  induction gs generalizing ctx k with
  | nil => rfl
  | cons g gs ih => simp [iterations, metricValues_append, metricValues_iteration, ih]

theorem startCalls_iterations {κ ε : Type} (env : Env κ ε) (ctx : κ) (k : Nat)
    (gs : List (List Event)) : startCalls (iterations env ctx k gs) = gs.length := by
  induction gs generalizing ctx k with
  | nil => rfl
  | cons g gs ih =>
    simp [iterations, startCalls_append, startCalls_iteration, ih]
    omega

theorem endCalls_iterations {κ ε : Type} (env : Env κ ε) (ctx : κ) (k : Nat)
    (gs : List (List Event)) : endCalls (iterations env ctx k gs) = gs.length := by
  induction gs generalizing ctx k with
  | nil => rfl
  | cons g gs ih =>
    simp [iterations, endCalls_append, endCalls_iteration, ih]
    omega

theorem receivedSince_iterations {κ ε : Type} (env : Env κ ε) (ctx : κ) (k : Nat)
    (gs : List (List Event)) : receivedSince [] (iterations env ctx k gs) = [] := by
  induction gs generalizing ctx k with
  | nil => rfl
  | cons g gs ih => simp [iterations, receivedSince_append, receivedSince_iteration, ih]

/-! ## Locating a `ConsumeLogs` call in a trace -/

theorem peel_cons {κ ε : Type} (x y : Effect κ ε) (rest pre post : List (Effect κ ε))
    (hxy : x ≠ y) (h : x :: rest = pre ++ y :: post) :
    ∃ pre', pre = x :: pre' ∧ rest = pre' ++ y :: post := by
  cases pre with
  | nil =>
    simp only [List.nil_append, List.cons.injEq] at h
    exact absurd h.1 hxy
  | cons z pre' =>
    simp only [List.cons_append, List.cons.injEq] at h
    exact ⟨pre', by rw [h.1], h.2⟩

theorem peel_map_recv {κ ε : Type} (g : List Event) (c : κ) (ld : Logs)
    (rest pre post : List (Effect κ ε))
    (h : g.map Effect.recv ++ rest = pre ++ Effect.ConsumeLogs c ld :: post) :
    ∃ pre', pre = g.map Effect.recv ++ pre' ∧ rest = pre' ++ Effect.ConsumeLogs c ld :: post := by
  induction g generalizing pre with
  | nil => exact ⟨pre, by simp, by simpa using h⟩
  | cons e es ih =>
    simp only [List.map_cons, List.cons_append] at h
    obtain ⟨pre', hpre, hrest⟩ := peel_cons _ _ _ _ _ (by simp) h
    obtain ⟨pre'', hpre', hrest'⟩ := ih pre' hrest
    exact ⟨pre'', by simp [hpre, hpre'], hrest'⟩

/-- Every `ConsumeLogs` call of a trace made of complete iterations followed by receives
is the one of some iteration. -/
theorem locate_ConsumeLogs {κ ε : Type} (env : Env κ ε) (ctx : κ) (k : Nat)
    (gs : List (List Event)) (cur : List Event) (c : κ) (ld : Logs)
    (pre post : List (Effect κ ε))
    (h : iterations env ctx k gs ++ cur.map Effect.recv = pre ++ Effect.ConsumeLogs c ld :: post) :
    ∃ gs1 g gs2, gs = gs1 ++ g :: gs2 ∧
      pre = iterations env ctx k gs1 ++ g.map Effect.recv ++
        [Effect.statsRecord ((singleScope (records g)).LogRecordCount : Int),
         Effect.StartLogsOp (env.StartLogsOp^[gs1.length] ctx)] ∧
      c = env.StartLogsOp (env.StartLogsOp^[gs1.length] ctx) ∧
      ld = singleScope (records g) ∧
      post = Effect.EndLogsOp c "fluent"
          (env.ConsumeLogs (k + gs1.length) c ld).1.LogRecordCount
          (env.ConsumeLogs (k + gs1.length) c ld).2 ::
        (iterations env (env.StartLogsOp^[gs1.length + 1] ctx) (k + gs1.length + 1) gs2 ++
          cur.map Effect.recv) := by
  induction gs generalizing ctx k pre with
  | nil =>
    simp only [iterations, List.nil_append] at h
    have h' : cur.map Effect.recv ++ [] = pre ++ Effect.ConsumeLogs c ld :: post := by
      simpa using h
    obtain ⟨pre', _, hnil⟩ := peel_map_recv cur c ld [] pre post h'
    simp at hnil
  | cons g gs ih =>
    simp only [iterations, iteration, List.append_assoc] at h
    obtain ⟨p1, hp1, h1⟩ := peel_map_recv g c ld _ pre post h
    simp only [List.cons_append, List.nil_append] at h1
    obtain ⟨p2, hp2, h2⟩ := peel_cons _ _ _ _ _ (by simp) h1
    obtain ⟨p3, hp3, h3⟩ := peel_cons _ _ _ _ _ (by simp) h2
    cases p3 with
    | nil =>
      simp only [List.nil_append, List.cons.injEq, Effect.ConsumeLogs.injEq] at h3
      obtain ⟨⟨hc, hld⟩, hpost⟩ := h3
      refine ⟨[], g, gs, rfl, ?_, ?_, ?_, ?_⟩
      · simp [hp1, hp2, hp3, iterations]
      · simpa using hc.symm
      · exact hld.symm
      · subst hc hld
        simpa using hpost.symm
    | cons z p4 =>
      simp only [List.cons_append, List.cons.injEq] at h3
      obtain ⟨hz, h4⟩ := h3
      subst hz
      obtain ⟨p5, hp5, h5⟩ := peel_cons _ _ _ _ _ (by simp) h4
      obtain ⟨gs1, g', gs2, hgs, hpre, hc, hld, hpost⟩ := ih _ _ _ h5
      refine ⟨g :: gs1, g', gs2, by simp [hgs], ?_, ?_, hld, ?_⟩
      · subst hp1 hp2 hp3 hp5 hpre
        simp [iterations, iteration, Function.iterate_succ_apply]
      · simpa [Function.iterate_succ_apply] using hc
      · have hk : k + 1 + gs1.length = k + (gs1.length + 1) := by omega
        rw [hk] at hpost
        rw [hpost]
        simp only [List.length_cons, Function.iterate_succ_apply]

/-! ## The invariant holds along every run -/

theorem run_append {κ ε : Type} (env : Env κ ε) (s : State κ ε) (a b : List Input) :
    run env s (a ++ b) = run env (run env s a) b := by
  simp [run, List.foldl_append]

theorem run_cons {κ ε : Type} (env : Env κ ε) (s : State κ ε) (i : Input) (t : List Input) :
    run env s (i :: t) = run env (step env s i) t := rfl

theorem Inv.start {κ ε : Type} (env : Env κ ε) (ctx0 : κ) (q : List Event) :
    Inv env ctx0 (Start ctx0 q : State κ ε) [] [] :=
  { nonempty := by simp
    calls := rfl
    ctx := rfl
    trace := rfl
    loc := rfl }

theorem Inv.after_step {κ ε : Type} {env : Env κ ε} {ctx0 : κ} {s : State κ ε}
    {groups : List (List Event)} {cur : List Event} (h : Inv env ctx0 s groups cur)
    (i : Input) : ∃ groups' cur', Inv env ctx0 (step env s i) groups' cur' := by
  obtain ⟨hne, hcalls, hctx, htrace, hloc⟩ := h
  obtain ⟨loc, ctx, ch, calls, trace⟩ := s
  simp only at hcalls hctx htrace hloc
  cases i with
  | send e => exact ⟨groups, cur, ⟨hne, hcalls, hctx, htrace, hloc⟩⟩
  | tick d p =>
    cases loc with
    | select =>
      have hcur : cur = [] := hloc
      subst hcur
      cases ch with
      | nil =>
        cases d
        · exact ⟨groups, [], ⟨hne, hcalls, hctx, htrace, rfl⟩⟩
        · exact ⟨groups, [], ⟨hne, hcalls, hctx, htrace, rfl⟩⟩
      | cons e rest =>
        by_cases hdp : (d && p) = true
        · refine ⟨groups, [], ⟨hne, ?_, ?_, ?_, ?_⟩⟩ <;>
            simp [FluentForward.step, processEventsSelect, hdp, hcalls, hctx, htrace, LocOk]
        · refine ⟨groups, [e], ⟨hne, ?_, ?_, ?_, ?_⟩⟩ <;>
            simp [FluentForward.step, processEventsSelect, hdp, hcalls, hctx, htrace, LocOk,
              newBatch_eq, records]
    | fill out dest =>
      obtain ⟨hcur, hout, hdest⟩ := hloc
      subst hout hdest
      cases ch with
      | nil =>
        exact ⟨groups, cur, ⟨hne, hcalls, hctx, htrace, ⟨hcur, rfl⟩⟩⟩
      | cons e rest =>
        refine ⟨groups, cur ++ [e], ⟨hne, hcalls, hctx, ?_, ?_⟩⟩
        · simp [FluentForward.step, fillBufferUntilChanEmptySelect, htrace]
        · simp [FluentForward.step, fillBufferUntilChanEmptySelect, LocOk,
            MoveAndAppendTo_singleScope, records_append, records]
    | forward out =>
      obtain ⟨hcur, hout⟩ := hloc
      subst hout
      refine ⟨groups ++ [cur], [], ⟨?_, ?_, ?_, ?_, rfl⟩⟩
      · intro g hg
        rcases List.mem_append.mp hg with hg | hg
        · exact hne g hg
        · simp at hg
          exact hg ▸ hcur
      · simp [FluentForward.step, processEventsForward, hcalls]
      · simp [FluentForward.step, processEventsForward, hctx, Function.iterate_succ_apply']
      · simp [FluentForward.step, processEventsForward, htrace, iterations_append, iteration,
          hctx, hcalls]
    | returned => exact ⟨groups, cur, ⟨hne, hcalls, hctx, htrace, hloc⟩⟩

theorem Inv.after_run {κ ε : Type} {env : Env κ ε} {ctx0 : κ} (sched : List Input) {s : State κ ε}
    {groups : List (List Event)} {cur : List Event} (h : Inv env ctx0 s groups cur) :
    ∃ groups' cur', Inv env ctx0 (run env s sched) groups' cur' := by
  induction sched generalizing s groups cur with
  | nil => exact ⟨groups, cur, h⟩
  | cons i t ih =>
    obtain ⟨g', c', h'⟩ := h.after_step i
    exact ih h'

/-- Every state reached from `Start` satisfies the invariant. -/
theorem reachable_inv {κ ε : Type} (env : Env κ ε) (ctx0 : κ) (q : List Event)
    (sched : List Input) :
    ∃ groups cur, Inv env ctx0 (run env (Start ctx0 q) sched) groups cur :=
  (Inv.start env ctx0 q).after_run sched

/-- The channel is first in, first out: what has been received followed by what is still
queued is what was sent, in the order it was sent. -/
theorem fifo_step {κ ε : Type} (env : Env κ ε) (s : State κ ε) (i : Input) :
    dequeued (step env s i).trace ++ (step env s i).eventCh =
      dequeued s.trace ++ s.eventCh ++ sent [i] := by
  obtain ⟨loc, ctx, ch, calls, trace⟩ := s
  cases i with
  | send e => simp [FluentForward.step, sent]
  | tick d p =>
    cases loc with
    | select =>
      cases ch with
      | nil => cases d <;> simp [FluentForward.step, processEventsSelect, sent]
      | cons e rest =>
        by_cases hdp : (d && p) = true
        · simp [FluentForward.step, processEventsSelect, hdp, sent]
        · simp [FluentForward.step, processEventsSelect, hdp, sent, dequeued_append, dequeued]
    | fill out dest =>
      cases ch with
      | nil => simp [FluentForward.step, fillBufferUntilChanEmptySelect, sent]
      | cons e rest =>
        simp [FluentForward.step, fillBufferUntilChanEmptySelect, sent, dequeued_append, dequeued]
    | forward out =>
      simp [FluentForward.step, processEventsForward, sent, dequeued_append, dequeued]
    | returned => simp [FluentForward.step, sent]

theorem sent_append (a b : List Input) : sent (a ++ b) = sent a ++ sent b := by
  induction a with
  | nil => rfl
  | cons x t ih => cases x <;> simp [sent, ih]

theorem fifo_run {κ ε : Type} (env : Env κ ε) (s : State κ ε) (sched : List Input) :
    dequeued (run env s sched).trace ++ (run env s sched).eventCh =
      dequeued s.trace ++ s.eventCh ++ sent sched := by
  induction sched generalizing s with
  | nil => simp [run, sent]
  | cons i t ih =>
    rw [run_cons, ih, fifo_step]
    have : sent (i :: t) = sent [i] ++ sent t := sent_append [i] t
    rw [this]
    simp

/-! ## Runs without concurrent sends -/

theorem quiet_succ (n : Nat) : quiet (n + 1) = Input.tick false false :: quiet n := rfl

theorem quiet_add (m n : Nat) : quiet (m + n) = quiet m ++ quiet n := by
  unfold quiet
  exact List.replicate_add m n _

theorem drained_recordsAt (out : Logs) (dest : Handle) (q : List Event) (d : List LogRecord)
    (hd : out.recordsAt dest = some d) :
    (drained out dest q).recordsAt dest = some (d ++ records q) := by
  induction q generalizing out d with
  | nil => simpa [drained, records] using hd
  | cons e es ih =>
    have h := ih (out.MoveAndAppendTo e.logRecords dest) (d ++ e.logRecords)
      (recordsAt_MoveAndAppendTo out dest d e.logRecords hd)
    simpa [drained, records] using h

theorem drained_singleScope (rs : List LogRecord) (q : List Event) :
    drained (singleScope rs) ⟨0, 0⟩ q = singleScope (rs ++ records q) := by
  induction q generalizing rs with
  | nil => simp [drained, records]
  | cons e es ih =>
    have h := ih (rs ++ e.logRecords)
    simpa [drained, records, MoveAndAppendTo_singleScope] using h

/-- With nobody sending, `fillBufferUntilChanEmpty` returns after one receive per queued
Event and one more attempt. -/
theorem fill_run {κ ε : Type} (env : Env κ ε) (dest : Handle) (ctx : κ) (calls : Nat)
    (q : List Event) (out : Logs) (trace : List (Effect κ ε)) :
    run env ⟨Loc.fill out dest, ctx, q, calls, trace⟩ (quiet (q.length + 1)) =
      ⟨Loc.forward (drained out dest q), ctx, [], calls, trace ++ q.map Effect.recv⟩ := by
  induction q generalizing out trace with
  | nil => simp [quiet, run, step, fillBufferUntilChanEmptySelect, drained]
  | cons e es ih =>
    rw [List.length_cons, quiet_succ, run_cons]
    have h := ih (out.MoveAndAppendTo e.logRecords dest) (trace ++ [Effect.recv e])
    simpa [step, fillBufferUntilChanEmptySelect, drained] using h

/-- With nobody sending and the context not done, one iteration of `processEvents` takes
everything that is queued. -/
theorem iteration_run {κ ε : Type} (env : Env κ ε) (ctx : κ) (calls : Nat) (e : Event)
    (es : List Event) (trace : List (Effect κ ε)) :
    run env ⟨Loc.select, ctx, e :: es, calls, trace⟩ (quiet ((e :: es).length + 2)) =
      ⟨Loc.select, env.StartLogsOp ctx, [], calls + 1,
        trace ++ iteration env ctx calls (e :: es)⟩ := by
  have hq : quiet ((e :: es).length + 2) =
      Input.tick false false :: (quiet (es.length + 1) ++ quiet 1) := by
    rw [← quiet_add, ← quiet_succ]
    simp [Nat.add_assoc]
  rw [hq, run_cons, run_append]
  have h1 : step env ⟨Loc.select, ctx, e :: es, calls, trace⟩ (Input.tick false false) =
      ⟨Loc.fill (singleScope e.logRecords) ⟨0, 0⟩, ctx, es, calls, trace ++ [Effect.recv e]⟩ := by
    simp [step, processEventsSelect, newBatch_eq]
  rw [h1, fill_run, drained_singleScope]
  have hone : ∀ s : State κ ε, run env s (quiet 1) = step env s (Input.tick false false) :=
    fun _ => rfl
  rw [hone]
  simp only [step, processEventsForward, iteration, records, List.map_cons, List.append_assoc,
    List.cons_append, List.nil_append]

/-! ## Every `ConsumeLogs` call of a run -/

/-- In a run started by `Start`, a `ConsumeLogs` call closes a group `g` of received
Events, after the complete iterations of the groups `gs1`. -/
theorem consume_located {κ ε : Type} (env : Env κ ε) (ctx0 : κ) (q : List Event)
    (sched : List Input) (pre post : List (Effect κ ε)) (c : κ) (ld : Logs)
    (h : (run env (Start ctx0 q) sched).trace = pre ++ Effect.ConsumeLogs c ld :: post) :
    ∃ gs1 g, g ≠ [] ∧
      pre = iterations env ctx0 0 gs1 ++ g.map Effect.recv ++
        [Effect.statsRecord ((singleScope (records g)).LogRecordCount : Int),
         Effect.StartLogsOp (env.StartLogsOp^[gs1.length] ctx0)] ∧
      c = env.StartLogsOp (env.StartLogsOp^[gs1.length] ctx0) ∧
      ld = singleScope (records g) ∧
      ∃ post', post = Effect.EndLogsOp c "fluent"
          (env.ConsumeLogs gs1.length c ld).1.LogRecordCount
          (env.ConsumeLogs gs1.length c ld).2 :: post' := by
  obtain ⟨groups, cur, hinv⟩ := reachable_inv env ctx0 q sched
  have ht := hinv.trace
  rw [h] at ht
  obtain ⟨gs1, g, gs2, hgs, hpre, hc, hld, hpost⟩ :=
    locate_ConsumeLogs env ctx0 0 groups cur c ld pre post ht.symm
  refine ⟨gs1, g, ?_, hpre, hc, hld, ?_⟩
  · exact hinv.nonempty g (by simp [hgs])
  · exact ⟨_, by simpa using hpost⟩

theorem receivedSince_before_consume {κ ε : Type} (env : Env κ ε) (ctx : κ) (k : Nat)
    (gs1 : List (List Event)) (g : List Event) (v : Int) (c : κ) :
    receivedSince [] (iterations env ctx k gs1 ++ g.map Effect.recv ++
      [Effect.statsRecord v, Effect.StartLogsOp c]) = g := by
  simp [receivedSince_append, receivedSince_iterations, receivedSince_map_recv, receivedSince]

theorem forwarded_before_consume {κ ε : Type} (env : Env κ ε) (ctx : κ) (k : Nat)
    (gs1 : List (List Event)) (g : List Event) (v : Int) (c : κ) :
    forwarded (iterations env ctx k gs1 ++ g.map Effect.recv ++
      [Effect.statsRecord v, Effect.StartLogsOp c]) =
      gs1.map fun g => singleScope (records g) := by
  simp [forwarded_append, forwarded_iterations, forwarded_map_recv, forwarded]

theorem metricValues_before_consume {κ ε : Type} (env : Env κ ε) (ctx : κ) (k : Nat)
    (gs1 : List (List Event)) (g : List Event) (v : Int) (c : κ) :
    metricValues (iterations env ctx k gs1 ++ g.map Effect.recv ++
      [Effect.statsRecord v, Effect.StartLogsOp c]) =
      (gs1.map fun g => ((singleScope (records g)).LogRecordCount : Int)) ++ [v] := by
  simp [metricValues_append, metricValues_iterations, metricValues_map_recv, metricValues]

/-! ## The claims -/

/-- C1: when a non-empty sequence of Events is queued at the `select` of `processEvents`
and nobody sends meanwhile, one loop iteration (one receive per Event, the attempt that
finds the channel empty, and the forwarding) hands exactly one batch to `ConsumeLogs`,
holding the records of all the Events in order, and leaves the channel empty. -/
theorem processEvents_one_batch_for_queued_events {κ ε : Type} (env : Env κ ε)
    (s : State κ ε) (evs : List Event)
    (hloc : s.loc = Loc.select) (hq : s.eventCh = evs) (hne : evs ≠ []) :
    (run env s (quiet (evs.length + 2))).loc = Loc.select ∧
    (run env s (quiet (evs.length + 2))).eventCh = [] ∧
    forwarded (run env s (quiet (evs.length + 2))).trace =
      forwarded s.trace ++ [(⟨[⟨[⟨records evs⟩]⟩]⟩ : Logs)] ∧
    dequeued (run env s (quiet (evs.length + 2))).trace = dequeued s.trace ++ evs := by
  obtain ⟨loc, ctx, ch, calls, trace⟩ := s
  simp only at hloc hq
  subst hloc hq
  cases ch with
  | nil => exact absurd rfl hne
  | cons e es =>
    rw [iteration_run]
    refine ⟨rfl, rfl, ?_, ?_⟩
    · simp [forwarded_append, forwarded_iteration, singleScope]
    · simp [dequeued_append, dequeued_iteration]

/-- The scenario of C1: E1 with two records, E2 with one, E3 with three. -/
theorem processEvents_one_batch_for_queued_events_witness :
    ([ev [11, 12], ev [21], ev [31, 32, 33]] ≠ [] ∧
      ((run keepEnv (Start Ctx.supplied [ev [11, 12], ev [21], ev [31, 32, 33]])
          (quiet 5)).loc = Loc.select ∧
       (run keepEnv (Start Ctx.supplied [ev [11, 12], ev [21], ev [31, 32, 33]])
          (quiet 5)).eventCh = [] ∧
       forwarded (run keepEnv (Start Ctx.supplied [ev [11, 12], ev [21], ev [31, 32, 33]])
          (quiet 5)).trace =
        forwarded (Start Ctx.supplied [ev [11, 12], ev [21], ev [31, 32, 33]] :
            State Ctx String).trace ++
          [(⟨[⟨[⟨records [ev [11, 12], ev [21], ev [31, 32, 33]]⟩]⟩]⟩ : Logs)] ∧
       dequeued (run keepEnv (Start Ctx.supplied [ev [11, 12], ev [21], ev [31, 32, 33]])
          (quiet 5)).trace =
        dequeued (Start Ctx.supplied [ev [11, 12], ev [21], ev [31, 32, 33]] :
            State Ctx String).trace ++ [ev [11, 12], ev [21], ev [31, 32, 33]])) ∧
    forwarded (run keepEnv (Start Ctx.supplied [ev [11, 12], ev [21], ev [31, 32, 33]])
        (quiet 5)).trace =
      [⟨[⟨[⟨[⟨11⟩, ⟨12⟩, ⟨21⟩, ⟨31⟩, ⟨32⟩, ⟨33⟩]⟩]⟩]⟩] :=
  ⟨⟨by decide,
    processEvents_one_batch_for_queued_events keepEnv
      (Start Ctx.supplied [ev [11, 12], ev [21], ev [31, 32, 33]])
      [ev [11, 12], ev [21], ev [31, 32, 33]] rfl rfl (by decide)⟩,
   by decide⟩

/-- C2: in every run, the records-generated values emitted are, one for one and in
order, the record counts of the batches handed to `ConsumeLogs`; and at the moment of
each `ConsumeLogs` call the emission for that batch has already happened, exactly once,
with the number of records of the batch, which is the sum of the record counts of the
Events received in that iteration. -/
theorem statsRecord_once_before_each_ConsumeLogs {κ ε : Type} (env : Env κ ε) (ctx0 : κ)
    (q : List Event) (sched : List Input) :
    metricValues (run env (Start ctx0 q) sched).trace =
      (forwarded (run env (Start ctx0 q) sched).trace).map
        (fun ld => (ld.LogRecordCount : Int)) ∧
    ∀ (pre post : List (Effect κ ε)) (c : κ) (ld : Logs),
      (run env (Start ctx0 q) sched).trace = pre ++ Effect.ConsumeLogs c ld :: post →
      metricValues pre =
        (forwarded pre).map (fun ld => (ld.LogRecordCount : Int)) ++
          [(ld.LogRecordCount : Int)] ∧
      ld.LogRecordCount = ld.allRecords.length ∧
      ld.LogRecordCount = ((receivedSince [] pre).map fun e => e.logRecords.length).sum := by
  constructor
  · obtain ⟨groups, cur, hinv⟩ := reachable_inv env ctx0 q sched
    rw [hinv.trace]
    simp [metricValues_append, metricValues_iterations, metricValues_map_recv,
      forwarded_append, forwarded_iterations, forwarded_map_recv]
  · intro pre post c ld h
    obtain ⟨gs1, g, _, hpre, _, hld, _⟩ := consume_located env ctx0 q sched pre post c ld h
    subst hpre hld
    refine ⟨?_, ?_, ?_⟩
    · rw [metricValues_before_consume, forwarded_before_consume]
      simp
    · rw [LogRecordCount_singleScope, allRecords_singleScope]
    · rw [receivedSince_before_consume, LogRecordCount_singleScope, length_records]

/-- A run for C2: two Events merged into one batch of three records. -/
theorem statsRecord_once_before_each_ConsumeLogs_witness :
    (run keepEnv (Start Ctx.supplied [ev [1, 2], ev [3]]) (quiet 4)).trace =
        [Effect.recv (ev [1, 2]), Effect.recv (ev [3]), Effect.statsRecord 3,
          Effect.StartLogsOp Ctx.supplied] ++
        Effect.ConsumeLogs (Ctx.logsOp Ctx.supplied) ⟨[⟨[⟨[⟨1⟩, ⟨2⟩, ⟨3⟩]⟩]⟩]⟩ ::
          [Effect.EndLogsOp (Ctx.logsOp Ctx.supplied) "fluent" 3 none] ∧
      (metricValues ([Effect.recv (ev [1, 2]), Effect.recv (ev [3]), Effect.statsRecord 3,
          Effect.StartLogsOp Ctx.supplied] : List (Effect Ctx String)) =
        (forwarded ([Effect.recv (ev [1, 2]), Effect.recv (ev [3]), Effect.statsRecord 3,
          Effect.StartLogsOp Ctx.supplied] : List (Effect Ctx String))).map
            (fun ld => (ld.LogRecordCount : Int)) ++
          [((⟨[⟨[⟨[⟨1⟩, ⟨2⟩, ⟨3⟩]⟩]⟩]⟩ : Logs).LogRecordCount : Int)] ∧
       (⟨[⟨[⟨[⟨1⟩, ⟨2⟩, ⟨3⟩]⟩]⟩]⟩ : Logs).LogRecordCount =
         (⟨[⟨[⟨[⟨1⟩, ⟨2⟩, ⟨3⟩]⟩]⟩]⟩ : Logs).allRecords.length ∧
       (⟨[⟨[⟨[⟨1⟩, ⟨2⟩, ⟨3⟩]⟩]⟩]⟩ : Logs).LogRecordCount =
         ((receivedSince [] ([Effect.recv (ev [1, 2]), Effect.recv (ev [3]),
            Effect.statsRecord 3, Effect.StartLogsOp Ctx.supplied] :
              List (Effect Ctx String))).map fun e => e.logRecords.length).sum) :=
  ⟨rfl,
   (statsRecord_once_before_each_ConsumeLogs keepEnv Ctx.supplied [ev [1, 2], ev [3]]
      (quiet 4)).2 _ _ _ _ rfl⟩

/-- C3: `fillBufferUntilChanEmpty(dest)`, entered with the Events `q` queued and nobody
sending, returns after `q.length + 1` receive attempts with the channel empty and the
destination holding what it held, then the records of each Event of `q` in order; so
for consecutive Events `A`, `B` of `q` all records of `A` come before all records of `B`.
The same holds when `A` is the Event taken by the receive of `processEvents` and `B` the
first Event taken by `fillBufferUntilChanEmpty`. -/
theorem fillBufferUntilChanEmpty_appends_in_order {κ ε : Type} (env : Env κ ε)
    (s : State κ ε) (out : Logs) (dest : Handle) (d : List LogRecord) (q : List Event)
    (hloc : s.loc = Loc.fill out dest) (hd : out.recordsAt dest = some d)
    (hq : s.eventCh = q) :
    (∃ out', (run env s (quiet (q.length + 1))).loc = Loc.forward out' ∧
      (run env s (quiet (q.length + 1))).eventCh = [] ∧
      out'.recordsAt dest = some (d ++ records q) ∧
      ∀ (q1 q2 : List Event) (A B : Event), q = q1 ++ A :: B :: q2 →
        out'.recordsAt dest =
          some (d ++ records q1 ++ A.logRecords ++ B.logRecords ++ records q2)) ∧
    (∀ (s0 : State κ ε) (A : Event), s0.loc = Loc.select → s0.eventCh = A :: q →
      ∃ out0 dest0, (run env s0 (quiet (q.length + 2))).loc = Loc.forward out0 ∧
        out0.recordsAt dest0 = some (A.logRecords ++ records q) ∧
        out0.allRecords = A.logRecords ++ records q) := by
  obtain ⟨loc, ctx, ch, calls, trace⟩ := s
  simp only at hloc hq
  subst hloc hq
  constructor
  · refine ⟨drained out dest ch, ?_, ?_, drained_recordsAt out dest ch d hd, ?_⟩
    · rw [fill_run]
    · rw [fill_run]
    · intro q1 q2 A B hsplit
      rw [drained_recordsAt out dest ch d hd, hsplit]
      simp [records_append, records]
  · intro s0 A h0 hch
    obtain ⟨loc0, ctx0, ch0, calls0, trace0⟩ := s0
    simp only at h0 hch
    subst h0 hch
    refine ⟨singleScope (A.logRecords ++ records ch), ⟨0, 0⟩, ?_, rfl, ?_⟩
    · have hq : quiet (ch.length + 2) = Input.tick false false :: quiet (ch.length + 1) := rfl
      rw [hq, run_cons]
      have h1 : step env ⟨Loc.select, ctx0, A :: ch, calls0, trace0⟩ (Input.tick false false) =
          ⟨Loc.fill (singleScope A.logRecords) ⟨0, 0⟩, ctx0, ch, calls0,
            trace0 ++ [Effect.recv A]⟩ := by
        simp [step, processEventsSelect, newBatch_eq]
      rw [h1, fill_run, drained_singleScope]
    · exact allRecords_singleScope _

/-- A run for C3: a destination that already holds one record, second scope of the
second resource of the batch, and two Events queued. -/
theorem fillBufferUntilChanEmpty_appends_in_order_witness :
    (⟨[⟨[]⟩, ⟨[⟨[⟨7⟩]⟩, ⟨[⟨0⟩]⟩]⟩]⟩ : Logs).recordsAt ⟨1, 1⟩ = some [⟨0⟩] ∧
    ((∃ out', (run keepEnv
          (⟨Loc.fill ⟨[⟨[]⟩, ⟨[⟨[⟨7⟩]⟩, ⟨[⟨0⟩]⟩]⟩]⟩ ⟨1, 1⟩, Ctx.supplied, [ev [1, 2], ev [3]], 0, []⟩ :
            State Ctx String)
          (quiet ([ev [1, 2], ev [3]].length + 1))).loc = Loc.forward out' ∧
        (run keepEnv
          (⟨Loc.fill ⟨[⟨[]⟩, ⟨[⟨[⟨7⟩]⟩, ⟨[⟨0⟩]⟩]⟩]⟩ ⟨1, 1⟩, Ctx.supplied, [ev [1, 2], ev [3]], 0, []⟩ :
            State Ctx String)
          (quiet ([ev [1, 2], ev [3]].length + 1))).eventCh = [] ∧
        out'.recordsAt ⟨1, 1⟩ = some ([⟨0⟩] ++ records [ev [1, 2], ev [3]]) ∧
        ∀ (q1 q2 : List Event) (A B : Event), [ev [1, 2], ev [3]] = q1 ++ A :: B :: q2 →
          out'.recordsAt ⟨1, 1⟩ =
            some ([⟨0⟩] ++ records q1 ++ A.logRecords ++ B.logRecords ++ records q2)) ∧
      (∀ (s0 : State Ctx String) (A : Event), s0.loc = Loc.select →
        s0.eventCh = A :: [ev [1, 2], ev [3]] →
        ∃ out0 dest0,
          (run keepEnv s0 (quiet ([ev [1, 2], ev [3]].length + 2))).loc = Loc.forward out0 ∧
          out0.recordsAt dest0 = some (A.logRecords ++ records [ev [1, 2], ev [3]]) ∧
          out0.allRecords = A.logRecords ++ records [ev [1, 2], ev [3]])) ∧
    (run keepEnv
        (⟨Loc.fill ⟨[⟨[]⟩, ⟨[⟨[⟨7⟩]⟩, ⟨[⟨0⟩]⟩]⟩]⟩ ⟨1, 1⟩, Ctx.supplied, [ev [1, 2], ev [3]], 0, []⟩ :
          State Ctx String) (quiet 3)).loc =
      Loc.forward ⟨[⟨[]⟩, ⟨[⟨[⟨7⟩]⟩, ⟨[⟨0⟩, ⟨1⟩, ⟨2⟩, ⟨3⟩]⟩]⟩]⟩ :=
  ⟨by decide,
   fillBufferUntilChanEmpty_appends_in_order keepEnv
     ⟨Loc.fill ⟨[⟨[]⟩, ⟨[⟨[⟨7⟩]⟩, ⟨[⟨0⟩]⟩]⟩]⟩ ⟨1, 1⟩, Ctx.supplied, [ev [1, 2], ev [3]], 0, []⟩
     ⟨[⟨[]⟩, ⟨[⟨[⟨7⟩]⟩, ⟨[⟨0⟩]⟩]⟩]⟩ ⟨1, 1⟩ [⟨0⟩] [ev [1, 2], ev [3]] rfl (by decide) rfl,
   by decide⟩

theorem SameButErr.related_step {κ ε : Type} (env : Env κ ε) {a b : State κ ε} (h : SameButErr a b)
    (i : Input) : SameButErr (step env a i) (step env.succeeding b i) := by
  obtain ⟨la, ca, qa, ka, ta⟩ := a
  obtain ⟨lb, cb, qb, kb, tb⟩ := b
  obtain ⟨h1, h2, h3, h4, h5⟩ := h
  simp only at h1 h2 h3 h4 h5
  subst h1 h2 h3 h4
  cases i with
  | send e => exact ⟨rfl, rfl, rfl, rfl, h5⟩
  | tick d p =>
    cases la with
    | select =>
      cases qa with
      | nil => cases d <;> exact ⟨rfl, rfl, rfl, rfl, h5⟩
      | cons e rest =>
        by_cases hdp : (d && p) = true
        · simp [SameButErr, FluentForward.step, processEventsSelect, hdp, h5]
        · simp [SameButErr, FluentForward.step, processEventsSelect, hdp, h5, eraseErr]
    | fill out dest =>
      cases qa with
      | nil => exact ⟨rfl, rfl, rfl, rfl, h5⟩
      | cons e rest =>
        simp [SameButErr, FluentForward.step, fillBufferUntilChanEmptySelect, h5, eraseErr]
    | forward out =>
      simp [SameButErr, FluentForward.step, processEventsForward, Env.succeeding, h5, eraseErr]
    | returned => exact ⟨rfl, rfl, rfl, rfl, h5⟩

theorem SameButErr.related_run {κ ε : Type} (env : Env κ ε) (sched : List Input) {a b : State κ ε}
    (h : SameButErr a b) : SameButErr (run env a sched) (run env.succeeding b sched) := by
  induction sched generalizing a b with
  | nil => exact h
  | cons i t ih => exact ih (h.related_step env i)

/-- C4: whatever the consumer answers, the run goes on exactly as with a consumer that
always succeeds: same program point, same loop variable, same channel content, same
number of calls, same effects but for the error given to `EndLogsOp`; the `EndLogsOp`
that follows a `ConsumeLogs` call receives exactly the error that call returned; and the
forwarding step always goes back to the `select` of the loop, with the channel as it was
and nothing of the batch kept. -/
theorem ConsumeLogs_error_only_reported {κ ε : Type} (env : Env κ ε) (ctx0 : κ)
    (q : List Event) (sched : List Input) :
    (run env (Start ctx0 q) sched).loc = (run env.succeeding (Start ctx0 q) sched).loc ∧
    (run env (Start ctx0 q) sched).ctx = (run env.succeeding (Start ctx0 q) sched).ctx ∧
    (run env (Start ctx0 q) sched).eventCh =
      (run env.succeeding (Start ctx0 q) sched).eventCh ∧
    (run env (Start ctx0 q) sched).calls = (run env.succeeding (Start ctx0 q) sched).calls ∧
    (run env (Start ctx0 q) sched).trace.map eraseErr =
      (run env.succeeding (Start ctx0 q) sched).trace.map eraseErr ∧
    (∀ (pre post : List (Effect κ ε)) (c : κ) (ld : Logs),
      (run env (Start ctx0 q) sched).trace = pre ++ Effect.ConsumeLogs c ld :: post →
      ∃ n post', post =
        Effect.EndLogsOp c "fluent" n (env.ConsumeLogs (forwarded pre).length c ld).2 :: post') ∧
    (∀ (out : Logs) (ctx : κ) (ch : List Event) (calls : Nat) (trace : List (Effect κ ε))
        (d p : Bool),
      step env ⟨Loc.forward out, ctx, ch, calls, trace⟩ (Input.tick d p) =
        ⟨Loc.select, env.StartLogsOp ctx, ch, calls + 1,
          trace ++ [Effect.statsRecord (out.LogRecordCount : Int), Effect.StartLogsOp ctx,
            Effect.ConsumeLogs (env.StartLogsOp ctx) out,
            Effect.EndLogsOp (env.StartLogsOp ctx) "fluent"
              (env.ConsumeLogs calls (env.StartLogsOp ctx) out).1.LogRecordCount
              (env.ConsumeLogs calls (env.StartLogsOp ctx) out).2]⟩) := by
  have h := SameButErr.related_run env sched
    (show SameButErr (Start ctx0 q : State κ ε) (Start ctx0 q) from ⟨rfl, rfl, rfl, rfl, rfl⟩)
  refine ⟨h.1, h.2.1, h.2.2.1, h.2.2.2.1, h.2.2.2.2, ?_, ?_⟩
  · intro pre post c ld h
    obtain ⟨gs1, g, _, hpre, _, _, post', hpost⟩ :=
      consume_located env ctx0 q sched pre post c ld h
    refine ⟨(env.ConsumeLogs gs1.length c ld).1.LogRecordCount, post', ?_⟩
    rw [hpost, hpre, forwarded_before_consume]
    simp
  · intro out ctx ch calls trace d p
    rfl

/-- A run for C4: the consumer fails on its second call; the error reaches `EndLogsOp`
and the third batch is forwarded all the same. -/
theorem ConsumeLogs_error_only_reported_witness :
    (run failingEnv (Start Ctx.supplied []) threeBatches).trace =
      [Effect.recv (ev [1]), Effect.statsRecord 1, Effect.StartLogsOp Ctx.supplied,
        Effect.ConsumeLogs (Ctx.logsOp Ctx.supplied) ⟨[⟨[⟨[⟨1⟩]⟩]⟩]⟩,
        Effect.EndLogsOp (Ctx.logsOp Ctx.supplied) "fluent" 1 none,
        Effect.recv (ev [2]), Effect.statsRecord 1,
        Effect.StartLogsOp (Ctx.logsOp Ctx.supplied)] ++
      Effect.ConsumeLogs (Ctx.logsOp (Ctx.logsOp Ctx.supplied)) ⟨[⟨[⟨[⟨2⟩]⟩]⟩]⟩ ::
       [Effect.EndLogsOp (Ctx.logsOp (Ctx.logsOp Ctx.supplied)) "fluent" 1
          (some "export failed"),
        Effect.recv (ev [3]), Effect.statsRecord 1,
        Effect.StartLogsOp (Ctx.logsOp (Ctx.logsOp Ctx.supplied)),
        Effect.ConsumeLogs (Ctx.logsOp (Ctx.logsOp (Ctx.logsOp Ctx.supplied))) ⟨[⟨[⟨[⟨3⟩]⟩]⟩]⟩,
        Effect.EndLogsOp (Ctx.logsOp (Ctx.logsOp (Ctx.logsOp Ctx.supplied))) "fluent" 1 none] ∧
    (∃ n post',
      [Effect.EndLogsOp (Ctx.logsOp (Ctx.logsOp Ctx.supplied)) "fluent" 1
          (some "export failed"),
        Effect.recv (ev [3]), Effect.statsRecord 1,
        Effect.StartLogsOp (Ctx.logsOp (Ctx.logsOp Ctx.supplied)),
        Effect.ConsumeLogs (Ctx.logsOp (Ctx.logsOp (Ctx.logsOp Ctx.supplied))) ⟨[⟨[⟨[⟨3⟩]⟩]⟩]⟩,
        Effect.EndLogsOp (Ctx.logsOp (Ctx.logsOp (Ctx.logsOp Ctx.supplied))) "fluent" 1 none] =
      Effect.EndLogsOp (Ctx.logsOp (Ctx.logsOp Ctx.supplied)) "fluent" n
        (failingEnv.ConsumeLogs
          (forwarded ([Effect.recv (ev [1]), Effect.statsRecord 1,
            Effect.StartLogsOp Ctx.supplied,
            Effect.ConsumeLogs (Ctx.logsOp Ctx.supplied) ⟨[⟨[⟨[⟨1⟩]⟩]⟩]⟩,
            Effect.EndLogsOp (Ctx.logsOp Ctx.supplied) "fluent" 1 none,
            Effect.recv (ev [2]), Effect.statsRecord 1,
            Effect.StartLogsOp (Ctx.logsOp Ctx.supplied)] : List (Effect Ctx String))).length
          (Ctx.logsOp (Ctx.logsOp Ctx.supplied)) ⟨[⟨[⟨[⟨2⟩]⟩]⟩]⟩).2 :: post') ∧
    (run failingEnv (Start Ctx.supplied []) threeBatches).loc =
      (run failingEnv.succeeding (Start Ctx.supplied []) threeBatches).loc :=
  ⟨rfl,
   (ConsumeLogs_error_only_reported failingEnv Ctx.supplied [] threeBatches).2.2.2.2.2.1
     _ _ _ _ rfl,
   (ConsumeLogs_error_only_reported failingEnv Ctx.supplied [] threeBatches).1⟩

theorem returned_run {κ ε : Type} (env : Env κ ε) (ctx : κ) (calls : Nat)
    (trace : List (Effect κ ε)) (sched : List Input) (ch : List Event) :
    run env ⟨Loc.returned, ctx, ch, calls, trace⟩ sched =
      ⟨Loc.returned, ctx, ch ++ sent sched, calls, trace⟩ := by
  induction sched generalizing ch with
  | nil => simp [run, sent]
  | cons i t ih =>
    rw [run_cons]
    cases i with
    | send e =>
      have h := ih (ch ++ [e])
      simpa [step, sent] using h
    | tick d p =>
      have h := ih ch
      simpa [step, sent] using h

/-- C5 as stated fails: with the context done and one Event queued, the `select` of
`processEvents` may take the receive case; the loop then does not return, the Event is
received, and a `ConsumeLogs` call follows. -/
theorem done_context_with_queued_event_may_receive :
    (step keepEnv (Start Ctx.supplied [ev [1]]) (Input.tick true false)).loc =
      Loc.fill ⟨[⟨[⟨[⟨1⟩]⟩]⟩]⟩ ⟨0, 0⟩ ∧
    (step keepEnv (Start Ctx.supplied [ev [1]]) (Input.tick true false)).eventCh = [] ∧
    forwarded (run keepEnv (Start Ctx.supplied [ev [1]])
      [Input.tick true false, Input.tick true false, Input.tick true false]).trace =
        [⟨[⟨[⟨[⟨1⟩]⟩]⟩]⟩] :=
  ⟨rfl, rfl, rfl⟩

/-- C5, amended: with the context done at the `select` of `processEvents`, the loop
returns at once when the channel is empty, and also when Events are queued and the
`select` picks the done case; it then has received nothing and called nothing.  Once
`processEvents` has returned, whatever is sent stays in the channel and the trace never
grows: no receive, no `ConsumeLogs` call. -/
theorem done_context_returns {κ ε : Type} (env : Env κ ε) (ctx : κ) (ch : List Event)
    (calls : Nat) (trace : List (Effect κ ε)) (p : Bool) (sched : List Input) :
    step env ⟨Loc.select, ctx, [], calls, trace⟩ (Input.tick true p) =
      ⟨Loc.returned, ctx, [], calls, trace⟩ ∧
    step env ⟨Loc.select, ctx, ch, calls, trace⟩ (Input.tick true true) =
      ⟨Loc.returned, ctx, ch, calls, trace⟩ ∧
    run env ⟨Loc.returned, ctx, ch, calls, trace⟩ sched =
      ⟨Loc.returned, ctx, ch ++ sent sched, calls, trace⟩ := by
  refine ⟨rfl, ?_, returned_run env ctx calls trace sched ch⟩
  cases ch <;> rfl

/-- C6: with the channel empty, (a) `fillBufferUntilChanEmpty` returns at its first
receive attempt, the batch and so the destination unchanged and nothing received;
(b) the `select` of `processEvents` builds no batch and calls nothing: the goroutine
stays blocked, or returns if the context is done; and in every run each `ConsumeLogs`
call comes after at least one receive of the same iteration, the batch holding the
records of the Events received in that iteration. -/
theorem empty_channel_no_batch {κ ε : Type} (env : Env κ ε) (ctx0 : κ) (q : List Event)
    (sched : List Input) :
    (∀ (out : Logs) (dest : Handle) (ctx : κ) (calls : Nat) (trace : List (Effect κ ε))
        (d p : Bool),
      step env ⟨Loc.fill out dest, ctx, [], calls, trace⟩ (Input.tick d p) =
        ⟨Loc.forward out, ctx, [], calls, trace⟩) ∧
    (∀ (ctx : κ) (calls : Nat) (trace : List (Effect κ ε)) (d p : Bool),
      step env ⟨Loc.select, ctx, [], calls, trace⟩ (Input.tick d p) =
        ⟨if d then Loc.returned else Loc.select, ctx, [], calls, trace⟩) ∧
    (∀ (pre post : List (Effect κ ε)) (c : κ) (ld : Logs),
      (run env (Start ctx0 q) sched).trace = pre ++ Effect.ConsumeLogs c ld :: post →
      receivedSince [] pre ≠ [] ∧ ld.allRecords = records (receivedSince [] pre)) := by
  refine ⟨fun _ _ _ _ _ _ _ => rfl, ?_, ?_⟩
  · intro ctx calls trace d p
    cases d <;> rfl
  · intro pre post c ld h
    obtain ⟨gs1, g, hg, hpre, _, hld, _⟩ := consume_located env ctx0 q sched pre post c ld h
    subst hpre hld
    rw [receivedSince_before_consume, allRecords_singleScope]
    exact ⟨hg, rfl⟩

/-- A run for C6: the one `ConsumeLogs` call comes after the receive of the Event. -/
theorem empty_channel_no_batch_witness :
    (run keepEnv (Start Ctx.supplied []) [Input.tick false false, Input.send (ev [5]),
        Input.tick false false, Input.tick false false, Input.tick false false]).trace =
      [Effect.recv (ev [5]), Effect.statsRecord 1, Effect.StartLogsOp Ctx.supplied] ++
        Effect.ConsumeLogs (Ctx.logsOp Ctx.supplied) ⟨[⟨[⟨[⟨5⟩]⟩]⟩]⟩ ::
          [Effect.EndLogsOp (Ctx.logsOp Ctx.supplied) "fluent" 1 none] ∧
    (receivedSince [] ([Effect.recv (ev [5]), Effect.statsRecord 1,
        Effect.StartLogsOp Ctx.supplied] : List (Effect Ctx String)) ≠ [] ∧
      (⟨[⟨[⟨[⟨5⟩]⟩]⟩]⟩ : Logs).allRecords =
        records (receivedSince [] ([Effect.recv (ev [5]), Effect.statsRecord 1,
          Effect.StartLogsOp Ctx.supplied] : List (Effect Ctx String)))) ∧
    (run keepEnv (Start Ctx.supplied []) [Input.tick false false]).trace = [] :=
  ⟨rfl,
   (empty_channel_no_batch keepEnv Ctx.supplied [] [Input.tick false false,
      Input.send (ev [5]), Input.tick false false, Input.tick false false,
      Input.tick false false]).2.2 _ _ _ _ rfl,
   rfl⟩

/-- C7: in every run, whatever the interleaving of sends and collector turns, the records
of the batches handed to `ConsumeLogs` so far, batch after batch, followed by the records
of the batch under construction, are the records of the Events received so far, in the
order they were received; so between two iterations the forwarded records are exactly the
received records.  The Events are received in the order they were sent, and the batches
cover consecutive non-empty groups of the received Events, in order. -/
theorem forwarded_records_follow_dequeue_order {κ ε : Type} (env : Env κ ε) (ctx0 : κ)
    (q : List Event) (sched : List Input) :
    ((forwarded (run env (Start ctx0 q) sched).trace).map Logs.allRecords).flatten ++
        inFlight (run env (Start ctx0 q) sched).loc =
      records (dequeued (run env (Start ctx0 q) sched).trace) ∧
    ((run env (Start ctx0 q) sched).loc = Loc.select →
      ((forwarded (run env (Start ctx0 q) sched).trace).map Logs.allRecords).flatten =
        records (dequeued (run env (Start ctx0 q) sched).trace)) ∧
    dequeued (run env (Start ctx0 q) sched).trace ++ (run env (Start ctx0 q) sched).eventCh =
      q ++ sent sched ∧
    ∃ groups : List (List Event), (∀ g ∈ groups, g ≠ []) ∧
      (forwarded (run env (Start ctx0 q) sched).trace).map Logs.allRecords =
        groups.map records ∧
      dequeued (run env (Start ctx0 q) sched).trace =
        groups.flatten ++ receivedSince [] (run env (Start ctx0 q) sched).trace := by
  obtain ⟨groups, cur, hinv⟩ := reachable_inv env ctx0 q sched
  have hfw : (forwarded (run env (Start ctx0 q) sched).trace).map Logs.allRecords =
      groups.map records := by
    rw [hinv.trace]
    simp [forwarded_append, forwarded_iterations, forwarded_map_recv, allRecords_singleScope]
  have hdq : dequeued (run env (Start ctx0 q) sched).trace = groups.flatten ++ cur := by
    rw [hinv.trace]
    simp [dequeued_append, dequeued_iterations, dequeued_map_recv]
  have hrs : receivedSince [] (run env (Start ctx0 q) sched).trace = cur := by
    rw [hinv.trace]
    simp [receivedSince_append, receivedSince_iterations, receivedSince_map_recv]
  have hfl : inFlight (run env (Start ctx0 q) sched).loc = records cur := by
    have hl := hinv.loc
    cases hloc : (run env (Start ctx0 q) sched).loc with
    | select =>
      rw [hloc] at hl
      have : cur = [] := hl
      simp [inFlight, this, records]
    | returned =>
      rw [hloc] at hl
      have : cur = [] := hl
      simp [inFlight, this, records]
    | fill out dest =>
      rw [hloc] at hl
      obtain ⟨_, hout, _⟩ := hl
      simp [inFlight, hout, allRecords_singleScope]
    | forward out =>
      rw [hloc] at hl
      obtain ⟨_, hout⟩ := hl
      simp [inFlight, hout, allRecords_singleScope]
  refine ⟨?_, ?_, ?_, groups, hinv.nonempty, hfw, ?_⟩
  · rw [hfw, hfl, hdq, records_append, records_flatten]
  · intro hloc
    have hl := hinv.loc
    rw [hloc] at hl
    have hcur : cur = [] := hl
    rw [hfw, hdq, hcur, records_append, records_flatten]
    simp [records]
  · have h := fifo_run env (Start ctx0 q : State κ ε) sched
    simpa [Start, dequeued] using h
  · rw [hdq, hrs]

/-- A run for C7: sends interleaved with collector turns, three batches. -/
theorem forwarded_records_follow_dequeue_order_witness :
    (run failingEnv (Start Ctx.supplied []) threeBatches).loc = Loc.select ∧
    ((forwarded (run failingEnv (Start Ctx.supplied []) threeBatches).trace).map
        Logs.allRecords).flatten =
      records (dequeued (run failingEnv (Start Ctx.supplied []) threeBatches).trace) ∧
    ((forwarded (run failingEnv (Start Ctx.supplied []) threeBatches).trace).map
        Logs.allRecords).flatten = [⟨1⟩, ⟨2⟩, ⟨3⟩] :=
  ⟨rfl,
   (forwarded_records_follow_dequeue_order failingEnv Ctx.supplied [] threeBatches).2.1 rfl,
   by decide⟩

/-- C8: every batch handed to `ConsumeLogs` has exactly one resource entry, which has
exactly one scope entry, whose record slice holds all the records of the batch: the
records of every Event received in that iteration, however many Events there were. -/
theorem forwarded_batch_one_resource_one_scope {κ ε : Type} (env : Env κ ε) (ctx0 : κ)
    (q : List Event) (sched : List Input) (pre post : List (Effect κ ε)) (c : κ) (ld : Logs)
    (h : (run env (Start ctx0 q) sched).trace = pre ++ Effect.ConsumeLogs c ld :: post) :
    ld.resourceLogs.length = 1 ∧
    (∀ rl ∈ ld.resourceLogs, rl.scopeLogs.length = 1 ∧
      ∀ sl ∈ rl.scopeLogs, sl.logRecords = ld.allRecords ∧
        sl.logRecords = records (receivedSince [] pre)) ∧
    ld = ⟨[⟨[⟨records (receivedSince [] pre)⟩]⟩]⟩ := by
  obtain ⟨gs1, g, _, hpre, _, hld, _⟩ := consume_located env ctx0 q sched pre post c ld h
  subst hpre hld
  rw [receivedSince_before_consume]
  simp [singleScope, Logs.allRecords]

/-- A run for C8: three Events merged into one batch. -/
theorem forwarded_batch_one_resource_one_scope_witness :
    (run keepEnv (Start Ctx.supplied [ev [11, 12], ev [21], ev [31, 32, 33]]) (quiet 5)).trace =
      [Effect.recv (ev [11, 12]), Effect.recv (ev [21]), Effect.recv (ev [31, 32, 33]),
        Effect.statsRecord 6, Effect.StartLogsOp Ctx.supplied] ++
      Effect.ConsumeLogs (Ctx.logsOp Ctx.supplied)
          ⟨[⟨[⟨[⟨11⟩, ⟨12⟩, ⟨21⟩, ⟨31⟩, ⟨32⟩, ⟨33⟩]⟩]⟩]⟩ ::
        [Effect.EndLogsOp (Ctx.logsOp Ctx.supplied) "fluent" 6 none] ∧
    ((⟨[⟨[⟨[⟨11⟩, ⟨12⟩, ⟨21⟩, ⟨31⟩, ⟨32⟩, ⟨33⟩]⟩]⟩]⟩ : Logs).resourceLogs.length = 1 ∧
      (∀ rl ∈ (⟨[⟨[⟨[⟨11⟩, ⟨12⟩, ⟨21⟩, ⟨31⟩, ⟨32⟩, ⟨33⟩]⟩]⟩]⟩ : Logs).resourceLogs,
        rl.scopeLogs.length = 1 ∧
        ∀ sl ∈ rl.scopeLogs,
          sl.logRecords =
            (⟨[⟨[⟨[⟨11⟩, ⟨12⟩, ⟨21⟩, ⟨31⟩, ⟨32⟩, ⟨33⟩]⟩]⟩]⟩ : Logs).allRecords ∧
          sl.logRecords = records (receivedSince []
            ([Effect.recv (ev [11, 12]), Effect.recv (ev [21]), Effect.recv (ev [31, 32, 33]),
              Effect.statsRecord 6, Effect.StartLogsOp Ctx.supplied] :
                List (Effect Ctx String)))) ∧
      (⟨[⟨[⟨[⟨11⟩, ⟨12⟩, ⟨21⟩, ⟨31⟩, ⟨32⟩, ⟨33⟩]⟩]⟩]⟩ : Logs) =
        ⟨[⟨[⟨records (receivedSince []
          ([Effect.recv (ev [11, 12]), Effect.recv (ev [21]), Effect.recv (ev [31, 32, 33]),
            Effect.statsRecord 6, Effect.StartLogsOp Ctx.supplied] :
              List (Effect Ctx String)))⟩]⟩]⟩) :=
  ⟨rfl,
   forwarded_batch_one_resource_one_scope keepEnv Ctx.supplied
     [ev [11, 12], ev [21], ev [31, 32, 33]] (quiet 5) _ _ _ _ rfl⟩

/-- What the code does around each `ConsumeLogs` call: `StartLogsOp` right before it, on
the loop variable, its result given to `ConsumeLogs` and to `EndLogsOp`; `EndLogsOp` right
after it, with "fluent", the error the consumer returned, and the record count of the
batch as the consumer left it, which is the count of the batch handed over whenever the
consumer leaves the batch as it is.  There are as many `StartLogsOp` and `EndLogsOp`
calls as `ConsumeLogs` calls. -/
theorem hooks_around_each_ConsumeLogs {κ ε : Type} (env : Env κ ε) (ctx0 : κ)
    (q : List Event) (sched : List Input) :
    startCalls (run env (Start ctx0 q) sched).trace =
      (forwarded (run env (Start ctx0 q) sched).trace).length ∧
    endCalls (run env (Start ctx0 q) sched).trace =
      (forwarded (run env (Start ctx0 q) sched).trace).length ∧
    ∀ (pre post : List (Effect κ ε)) (c : κ) (ld : Logs),
      (run env (Start ctx0 q) sched).trace = pre ++ Effect.ConsumeLogs c ld :: post →
      ∃ pre' c0 post', pre = pre' ++ [Effect.StartLogsOp c0] ∧ c = env.StartLogsOp c0 ∧
        post = Effect.EndLogsOp c "fluent"
          (env.ConsumeLogs (forwarded pre).length c ld).1.LogRecordCount
          (env.ConsumeLogs (forwarded pre).length c ld).2 :: post' ∧
        ((env.ConsumeLogs (forwarded pre).length c ld).1 = ld →
          post = Effect.EndLogsOp c "fluent" ld.LogRecordCount
            (env.ConsumeLogs (forwarded pre).length c ld).2 :: post') := by
  obtain ⟨groups, cur, hinv⟩ := reachable_inv env ctx0 q sched
  refine ⟨?_, ?_, ?_⟩
  · rw [hinv.trace]
    simp [startCalls_append, startCalls_iterations, startCalls_map_recv, forwarded_append,
      forwarded_iterations, forwarded_map_recv]
  · rw [hinv.trace]
    simp [endCalls_append, endCalls_iterations, endCalls_map_recv, forwarded_append,
      forwarded_iterations, forwarded_map_recv]
  · intro pre post c ld h
    obtain ⟨gs1, g, _, hpre, hc, _, post', hpost⟩ :=
      consume_located env ctx0 q sched pre post c ld h
    have hlen : (forwarded pre).length = gs1.length := by
      rw [hpre, forwarded_before_consume]
      simp
    refine ⟨iterations env ctx0 0 gs1 ++ g.map Effect.recv ++
        [Effect.statsRecord ((singleScope (records g)).LogRecordCount : Int)],
      env.StartLogsOp^[gs1.length] ctx0, post', ?_, hc, ?_, ?_⟩
    · rw [hpre]
      simp
    · rw [hlen]
      exact hpost
    · intro hkeep
      rw [hlen] at hkeep
      rw [hpost, hlen, hkeep]

/-- C9 fails on the code: `EndLogsOp` is given `out.LogRecordCount()` as read after
`ConsumeLogs` has returned.  A consumer that moves the records out of the batch it is
handed makes the count 0, while the batch handed to `ConsumeLogs` held two records. -/
theorem EndLogsOp_count_read_after_ConsumeLogs :
    (run movingEnv (Start Ctx.supplied [ev [1, 2]]) (quiet 3)).trace =
      [Effect.recv (ev [1, 2]), Effect.statsRecord 2, Effect.StartLogsOp Ctx.supplied,
       Effect.ConsumeLogs (Ctx.logsOp Ctx.supplied) ⟨[⟨[⟨[⟨1⟩, ⟨2⟩]⟩]⟩]⟩,
       Effect.EndLogsOp (Ctx.logsOp Ctx.supplied) "fluent" 0 none] ∧
    (⟨[⟨[⟨[⟨1⟩, ⟨2⟩]⟩]⟩]⟩ : Logs).LogRecordCount = 2 :=
  ⟨rfl, rfl⟩

/-- The loop variable `ctx` after `k` batches is the context given to `Start` passed `k`
times through `StartLogsOp`. -/
theorem loop_context_after_calls {κ ε : Type} (env : Env κ ε) (ctx0 : κ) (q : List Event)
    (sched : List Input) :
    (run env (Start ctx0 q) sched).ctx =
      env.StartLogsOp^[(run env (Start ctx0 q) sched).calls] ctx0 ∧
    (run env (Start ctx0 q) sched).calls =
      (forwarded (run env (Start ctx0 q) sched).trace).length := by
  obtain ⟨groups, cur, hinv⟩ := reachable_inv env ctx0 q sched
  refine ⟨?_, ?_⟩
  · rw [hinv.ctx, hinv.calls]
  · rw [hinv.calls, hinv.trace]
    simp [forwarded_append, forwarded_iterations, forwarded_map_recv]

/-- C10 fails on the code: line 69 assigns the result of `StartLogsOp` to the loop
variable `ctx`.  After one batch the loop is back at its `select` with `ctx` holding the
context derived by the hook, not the context given to `Start`. -/
theorem loop_context_replaced_after_one_batch :
    (run keepEnv (Start Ctx.supplied [ev [1]]) (quiet 3)).loc = Loc.select ∧
    (forwarded (run keepEnv (Start Ctx.supplied [ev [1]]) (quiet 3)).trace).length = 1 ∧
    (run keepEnv (Start Ctx.supplied [ev [1]]) (quiet 3)).ctx = Ctx.logsOp Ctx.supplied ∧
    (run keepEnv (Start Ctx.supplied [ev [1]]) (quiet 3)).ctx ≠ Ctx.supplied :=
  ⟨rfl, rfl, rfl, by decide⟩

end FluentForward
